import Mathlib

/-!
Verification development for the work-schedule bot (`src/lambda/main.py`).

The development shallowly embeds the core of the program:
* a calendar `DateTime` value mirroring Python's timezone-aware `datetime`
  restricted to one fixed timezone (every instant of a run carries the same
  `tzinfo`, so comparisons are the lexicographic field order);
* the SHA-256 based shift fingerprint `_hash_shift`;
* the reconciler `_find_existing` / `_has_overlap` / `_upsert_event`,
  with the external Google Calendar event store modelled as a list of
  events and its `events().list` time-window semantics (an event is
  returned iff its end is strictly after `timeMin` and its start is
  strictly before `timeMax`);
* the Synerion table parser `_parse_synerion_table` over an HTML tree
  model of what BeautifulSoup's parser produces;
* the batch driver `_recent_published_messages` / `_process_recent_emails`,
  with the Gmail listing modelled as the newest-first message list it
  returns.
-/

/-! ## Calendar date-times -/

/-- Models a Python `datetime` (no microseconds: the program only ever
builds whole-second instants).  All instants of a run share one `tzinfo`,
so the timezone is dropped from the value. -/
structure DateTime where
  year : Nat
  month : Nat
  day : Nat
  hour : Nat
  minute : Nat
  second : Nat
deriving DecidableEq, Repr

/-- Radix encoding of the calendar day, monotone in the lexicographic
order of `(year, month, day)` for the field ranges Python's `datetime`
admits (`1 ≤ month ≤ 12`, `1 ≤ day ≤ 31`). -/
def DateTime.dayKey (t : DateTime) : Nat := (t.year * 13 + t.month) * 32 + t.day

/-- Seconds since midnight. -/
def DateTime.tod (t : DateTime) : Nat := t.hour * 3600 + t.minute * 60 + t.second

/-- Radix encoding of the whole instant; on the field ranges Python's
`datetime` admits it is order-isomorphic to Python's lexicographic
`datetime` comparison (equivalently, to instant order at fixed timezone). -/
def DateTime.key (t : DateTime) : Nat := t.dayKey * 86400 + t.tod

/-- Models `<` on two same-timezone Python `datetime` values. -/
def DateTime.ltb (a b : DateTime) : Bool := decide (a.key < b.key)

/-- Length of a month, with the Gregorian leap rule used by Python's
`datetime` validation. -/
def daysInMonth (y m : Nat) : Nat :=
  if m = 2 then (if y % 4 = 0 ∧ (y % 100 ≠ 0 ∨ y % 400 = 0) then 29 else 28)
  else if m = 4 ∨ m = 6 ∨ m = 9 ∨ m = 11 then 30 else 31

/-- Models `datetime(start_dt.year, start_dt.month, start_dt.day, tzinfo=...)`
from `_find_existing`. -/
def midnightOf (t : DateTime) : DateTime := ⟨t.year, t.month, t.day, 0, 0, 0⟩

/-- Models `+ timedelta(days=1)` on a Python `datetime`. -/
def addDay (t : DateTime) : DateTime :=
  if t.day < daysInMonth t.year t.month then { t with day := t.day + 1 }
  else if t.month < 12 then { t with month := t.month + 1, day := 1 }
  else { t with year := t.year + 1, month := 1, day := 1 }

/-- Field ranges of a value representable by a Python `datetime`
(year capped at 9999 as in CPython).  Every `datetime` the program can
hold satisfies this by construction. -/
def WFdt (t : DateTime) : Prop :=
  1 ≤ t.year ∧ t.year ≤ 9999 ∧ 1 ≤ t.month ∧ t.month ≤ 12 ∧
  1 ≤ t.day ∧ t.day ≤ daysInMonth t.year t.month ∧
  t.hour ≤ 23 ∧ t.minute ≤ 59 ∧ t.second ≤ 59

instance (t : DateTime) : Decidable (WFdt t) := by
  unfold WFdt
  infer_instance

/-! ## Shifts -/

/-- Models the shift dict built by `_parse_synerion_table`
(`start`, `end`, `summary`, `location`).  The source's `end` key is a Lean
keyword and is rendered `stop`. -/
structure Shift where
  start : DateTime
  stop : DateTime
  summary : String
  location : Option String
deriving DecidableEq, Repr

/-! ## SHA-256

Faithful implementation of SHA-256 (FIPS 180-4) on byte lists, used to
model `hashlib.sha256(key.encode()).hexdigest()`.  Words are `Nat`s
reduced mod `2^32`. -/

def m32 : Nat := 4294967296

def rotr (n x : Nat) : Nat := (x >>> n) ||| ((x <<< (32 - n)) % m32)

def bsig0 (x : Nat) : Nat := rotr 2 x ^^^ rotr 13 x ^^^ rotr 22 x

def bsig1 (x : Nat) : Nat := rotr 6 x ^^^ rotr 11 x ^^^ rotr 25 x

def ssig0 (x : Nat) : Nat := rotr 7 x ^^^ rotr 18 x ^^^ (x >>> 3)

def ssig1 (x : Nat) : Nat := rotr 17 x ^^^ rotr 19 x ^^^ (x >>> 10)

def chf (x y z : Nat) : Nat := (x &&& y) ^^^ ((x ^^^ 4294967295) &&& z)

def majf (x y z : Nat) : Nat := (x &&& y) ^^^ (x &&& z) ^^^ (y &&& z)

def k256 : List Nat :=
  [1116352408, 1899447441, 3049323471, 3921009573, 961987163, 1508970993,
   2453635748, 2870763221, 3624381080, 310598401, 607225278, 1426881987,
   1925078388, 2162078206, 2614888103, 3248222580, 3835390401, 4022224774,
   264347078, 604807628, 770255983, 1249150122, 1555081692, 1996064986,
   2554220882, 2821834349, 2952996808, 3210313671, 3336571891, 3584528711,
   113926993, 338241895, 666307205, 773529912, 1294757372, 1396182291,
   1695183700, 1986661051, 2177026350, 2456956037, 2730485921, 2820302411,
   3259730800, 3345764771, 3516065817, 3600352804, 4094571909, 275423344,
   430227734, 506948616, 659060556, 883997877, 958139571, 1322822218,
   1537002063, 1747873779, 1955562222, 2024104815, 2227730452, 2361852424,
   2428436474, 2756734187, 3204031479, 3329325298]

/-- Running hash state (eight 32-bit words). -/
structure Sha8 where
  a : Nat
  b : Nat
  c : Nat
  d : Nat
  e : Nat
  f : Nat
  g : Nat
  h : Nat
deriving DecidableEq, Repr

def initH : Sha8 :=
  ⟨1779033703, 3144134277, 1013904242, 2773480762,
   1359893119, 2600822924, 528734635, 1541459225⟩

/-- Big-endian 8-byte encoding of the bit length. -/
def be8 (n : Nat) : List Nat :=
  [(n >>> 56) % 256, (n >>> 48) % 256, (n >>> 40) % 256, (n >>> 32) % 256,
   (n >>> 24) % 256, (n >>> 16) % 256, (n >>> 8) % 256, n % 256]

/-- SHA-256 message padding. -/
def padMsg (msg : List Nat) : List Nat :=
  msg ++ 128 :: List.replicate ((119 - msg.length % 64) % 64) 0 ++ be8 (msg.length * 8)

/-- Big-endian 4-byte grouping of a block into 32-bit words. -/
def toWords : List Nat → List Nat
  | b0 :: b1 :: b2 :: b3 :: rest => (((b0 * 256 + b1) * 256 + b2) * 256 + b3) :: toWords rest
  | _ => []

/-- Message-schedule extension: appends `n` further words to `w`. -/
def schedExt : Nat → List Nat → List Nat
  | 0, w => w
  | n + 1, w =>
    let L := w.length
    schedExt n (w ++ [(ssig1 (w.getD (L - 2) 0) + w.getD (L - 7) 0 +
                       ssig0 (w.getD (L - 15) 0) + w.getD (L - 16) 0) % m32])

/-- The 64 compression rounds, driven by the zipped `(K[i], W[i])` list. -/
def compressLoop : List (Nat × Nat) → Sha8 → Sha8
  | [], st => st
  | kw :: rest, st =>
    let t1 := (st.h + bsig1 st.e + chf st.e st.f st.g + kw.1 + kw.2) % m32
    let t2 := (bsig0 st.a + majf st.a st.b st.c) % m32
    compressLoop rest ⟨(t1 + t2) % m32, st.a, st.b, st.c, (st.d + t1) % m32, st.e, st.f, st.g⟩

def compressBlock (st : Sha8) (block : List Nat) : Sha8 :=
  let w := schedExt 48 (toWords block)
  let r := compressLoop (k256.zip w) st
  ⟨(st.a + r.a) % m32, (st.b + r.b) % m32, (st.c + r.c) % m32, (st.d + r.d) % m32,
   (st.e + r.e) % m32, (st.f + r.f) % m32, (st.g + r.g) % m32, (st.h + r.h) % m32⟩

/-- Folds the compression function over the 64-byte blocks of a padded
message.  The fuel is instantiated with the padded length, which bounds
the number of blocks. -/
def chunksGo : Nat → List Nat → Sha8 → Sha8
  | 0, _, st => st
  | fuel + 1, bytes, st =>
    match bytes with
    | [] => st
    | _ => chunksGo fuel (bytes.drop 64) (compressBlock st (bytes.take 64))

/-- Lowercase hexadecimal rendering of a 32-bit word. -/
def hex8 (n : Nat) : List Char :=
  [Nat.digitChar ((n >>> 28) &&& 15), Nat.digitChar ((n >>> 24) &&& 15),
   Nat.digitChar ((n >>> 20) &&& 15), Nat.digitChar ((n >>> 16) &&& 15),
   Nat.digitChar ((n >>> 12) &&& 15), Nat.digitChar ((n >>> 8) &&& 15),
   Nat.digitChar ((n >>> 4) &&& 15), Nat.digitChar (n &&& 15)]

/-- Models `hashlib.sha256(bytes).hexdigest()`. -/
def sha256Hex (msg : List Nat) : String :=
  let padded := padMsg msg
  let st := chunksGo padded.length padded initH
  String.mk (hex8 st.a ++ hex8 st.b ++ hex8 st.c ++ hex8 st.d ++
             hex8 st.e ++ hex8 st.f ++ hex8 st.g ++ hex8 st.h)

/-! ## The fingerprint `_hash_shift` -/

/-- Decimal digit character of `n % 10`. -/
def dig (n : Nat) : Char := Nat.digitChar (n % 10)

/-- Two-digit zero-padded decimal rendering (how Python prints the
month/day/hour/minute/second fields of `date()`/`time()`; the fields are
two-digit-bounded in any Python `datetime`). -/
def two (n : Nat) : List Char := [dig (n / 10), dig n]

/-- Four-digit zero-padded decimal rendering of the year. -/
def four (n : Nat) : List Char := [dig (n / 1000), dig (n / 100), dig (n / 10), dig n]

/-- Models `str(dt.date())`, i.e. `YYYY-MM-DD`. -/
def dateStr (t : DateTime) : List Char := four t.year ++ '-' :: two t.month ++ '-' :: two t.day

/-- Models `str(dt.time())` for whole-second instants, i.e. `HH:MM:SS`. -/
def timeStr (t : DateTime) : List Char := two t.hour ++ ':' :: two t.minute ++ ':' :: two t.second

/-- Models the f-string key of `_hash_shift`:
`f"{start.date()}|{start.time()}|{end.time()}"`. -/
def hashKeyOf (s : Shift) : List Char :=
  dateStr s.start ++ '|' :: timeStr s.start ++ '|' :: timeStr s.stop

/-- Bytes of an ASCII character list (the hash key is pure ASCII, so
UTF-8 encoding is the identity on code points). -/
def strBytes (l : List Char) : List Nat := l.map Char.toNat

/-- Models `_hash_shift` (`main.py` 243-246): SHA-256 of the key,
hex digest truncated to its first 32 characters. -/
def _hash_shift (s : Shift) : String := String.take (sha256Hex (strBytes (hashKeyOf s))) 32

/-! ## The event store and the reconciler

The Google Calendar collaborator is modelled as a list of events.
`events().list(timeMin, timeMax, ...)` returns, in store order, the
events whose end is strictly after `timeMin` and whose start is strictly
before `timeMax` (the documented exclusive-bound semantics of the API),
optionally filtered by the private extended property `hash`.
`events().insert` appends an event under a caller-supplied fresh id
(modelling the server-assigned id); `events().update(eventId, body)`
replaces the body of the events bearing that id. -/

def strCreated : String := "created"

def strUpdated : String := "updated"

def strSkipped : String := "skipped_overlap"

/-- Models the `\s` class and Python's whitespace notion (ASCII
fragment; the schedule data is ASCII). -/
def pyWs (c : Char) : Bool := c.isWhitespace

/-- Models Python `str.strip()`: drop leading and trailing whitespace. -/
def pyStrip (s : String) : String :=
  String.mk (((s.data.dropWhile pyWs).reverse.dropWhile pyWs).reverse)

/-- Models Python `str.lower()` (ASCII fragment). -/
def pyLower (s : String) : String := String.mk (s.data.map Char.toLower)

/-- Character-list prefix test. -/
def listPrefix : List Char → List Char → Bool
  | [], _ => true
  | _ :: _, [] => false
  | a :: as, b :: bs => a == b && listPrefix as bs

/-- Models Python `s.startswith(pre)`. -/
def pyStartsWith (s pre : String) : Bool := listPrefix pre.data s.data

/-- Default of the `SHIFT_TITLE` environment variable. -/
def SHIFT_TITLE : String := "Work"

/-- Default of the `EVENT_COLOR_ID` environment variable. -/
def EVENT_COLOR_ID : String := "6"

/-- Models a Google Calendar event as the program reads and writes it:
identity, optional display title, time range, the private extended
property `hash`, plus the display color and default-reminders flag that
`_upsert_event` writes. -/
structure CalEvent where
  id : String
  summary : Option String
  start : DateTime
  stop : DateTime
  hash : Option String
  colorId : String
  remindersDefault : Bool
deriving DecidableEq, Repr

/-- Models the event body built in `_upsert_event` (`main.py` 286-293),
paired with the id the stored event carries. -/
def mkBody (s : Shift) (eid : String) : CalEvent :=
  ⟨eid, some s.summary, s.start, s.stop, some (_hash_shift s), EVENT_COLOR_ID, true⟩

/-- Day-window membership test of `_find_existing`: the event store query
with `timeMin = midnight(start)` and `timeMax = midnight(start) + 1 day`,
under the API's exclusive-bound semantics. -/
def dayWindowF (startDt : DateTime) (e : CalEvent) : Bool :=
  DateTime.ltb (midnightOf startDt) e.stop && DateTime.ltb e.start (addDay (midnightOf startDt))

/-- Models `_find_existing` (`main.py` 248-260): list the events of the
shift's calendar day carrying private hash `h`, return the first or none. -/
def _find_existing (store : List CalEvent) (h : String) (startDt : DateTime) : Option CalEvent :=
  (store.filter (fun e => dayWindowF startDt e && (e.hash == some h))).head?

/-- Window membership test of `_has_overlap`: the event store query with
`timeMin = start_dt` and `timeMax = end_dt`, i.e. overlap with the
half-open range `[start_dt, end_dt)`. -/
def overlapF (startDt endDt : DateTime) (e : CalEvent) : Bool :=
  DateTime.ltb startDt e.stop && DateTime.ltb e.start endDt

/-- Models `it.get("summary") or ""`. -/
def optStr : Option String → String
  | some s => s
  | none => ""

/-- Models `_has_overlap` (`main.py` 262-278): true iff some event
overlapping `[start_dt, end_dt)` has a (stripped, lowercased) title
starting with the lowercased title hint. -/
def _has_overlap (store : List CalEvent) (startDt endDt : DateTime) (titleHint : String) : Bool :=
  (store.filter (fun e => overlapF startDt endDt e)).any
    (fun it => pyStartsWith (pyLower (pyStrip (optStr it.summary))) (pyLower titleHint))

/-- Models `events().update(calendarId, eventId, body)`: every stored
event bearing `eid` (unique in a real store) has its body replaced. -/
def updateById (store : List CalEvent) (eid : String) (s : Shift) : List CalEvent :=
  store.map (fun ev => if ev.id == eid then mkBody s ev.id else ev)

/-- Models `_upsert_event` (`main.py` 281-304).  `newId` is the id the
server would assign on insert.  Returns the status string and the
resulting store. -/
def _upsert_event (store : List CalEvent) (shift : Shift) (newId : String) :
    String × List CalEvent :=
  match _find_existing store (_hash_shift shift) shift.start with
  | some e => (strUpdated, updateById store e.id shift)
  | none =>
    if _has_overlap store shift.start shift.stop shift.summary then (strSkipped, store)
    else (strCreated, store ++ [mkBody shift newId])

/-- The data-model invariant of a `Shift` (spec section 3): representable
boundary instants with `start < end`. -/
def ShiftWF (s : Shift) : Prop :=
  WFdt s.start ∧ WFdt s.stop ∧ DateTime.ltb s.start s.stop = true

/-! ## HTML tree model

`BeautifulSoup(html, "html.parser")` is modelled at its output: a forest
of element/text nodes.  `find_all` collects matching descendant elements
in document order; `get_text(strip=True)` joins the stripped text
fragments. -/

/-- A parsed HTML node: a text fragment, or an element with a tag and
children. -/
inductive HNode where
  | text (s : String) : HNode
  | elem (tag : String) (children : List HNode) : HNode

mutual

/-- Text fragments of a node, in document order. -/
def nodeTexts : HNode → List String
  | .text s => [s]
  | .elem _ cs => listTexts cs

/-- Text fragments of a forest, in document order. -/
def listTexts : List HNode → List String
  | [] => []
  | n :: ns => nodeTexts n ++ listTexts ns

end

mutual

/-- Matching elements among a node and its descendants, in document
order (how BeautifulSoup's `find_all` walks a tree). -/
def findTag (tag : String) : HNode → List HNode
  | .text _ => []
  | .elem t cs => (if t == tag then [HNode.elem t cs] else []) ++ findTagList tag cs

/-- Matching elements among a forest's nodes and their descendants. -/
def findTagList (tag : String) : List HNode → List HNode
  | [] => []
  | n :: ns => findTag tag n ++ findTagList tag ns

end

/-- Models `element.find_all(tag)`: matching descendants of a node, the
node itself excluded. -/
def findTagIn (tag : String) : HNode → List HNode
  | .text _ => []
  | .elem _ cs => findTagList tag cs

/-- Models `element.get_text(strip=True)`: the concatenation of the
stripped text fragments. -/
def getTextStrip (n : HNode) : String := String.join ((nodeTexts n).map pyStrip)

def emptyS : String := ""

def spaceS : String := " "

/-- Models `soup.get_text(" ", strip=True)` on the document: stripped,
non-empty text fragments joined by single spaces. -/
def docText (doc : List HNode) : String :=
  String.intercalate spaceS (((listTexts doc).map pyStrip).filter (fun s => s != emptyS))

/-! ## Regex and cell-level string processing

The fixed regular expressions of the parser are implemented directly as
scanners over character lists, with greedy-then-backtrack behaviour on
the bounded quantifiers, matching Python `re.search` on ASCII input. -/

/-- Models the `\w` class (word character), ASCII fragment. -/
def isWordC (c : Char) : Bool := c.isAlphanum || c == '_'

/-- Numeric value of an ASCII digit character. -/
def dval (c : Char) : Nat := c.toNat - 48

/-- Alternatives of a greedy `\d{1,2}` at the head of the input, longest
first, each with the remaining input. -/
def tryW : List Char → List (Nat × List Char)
  | c1 :: c2 :: rest =>
    if c1.isDigit then
      if c2.isDigit then [(dval c1 * 10 + dval c2, rest), (dval c1, c2 :: rest)]
      else [(dval c1, c2 :: rest)]
    else []
  | [c1] => if c1.isDigit then [(dval c1, [])] else []
  | [] => []

/-- Models `\d{4}` at the head of the input. -/
def grab4 : List Char → Option (Nat × List Char)
  | a :: b :: c :: d :: rest =>
    if a.isDigit && b.isDigit && c.isDigit && d.isDigit then
      some ((((dval a * 10 + dval b) * 10 + dval c) * 10 + dval d), rest)
    else none
  | _ => none

/-- Case-insensitive literal match (the literal is given lowercase). -/
def litCI : List Char → List Char → Option (List Char)
  | [], cs => some cs
  | _ :: _, [] => none
  | l :: ls, c :: cs => if c.toLower == l then litCI ls cs else none

/-- Models `\s+` at the head of the input. -/
def wsPlus : List Char → Option (List Char)
  | c :: rest => if pyWs c then some (rest.dropWhile pyWs) else none
  | [] => none

/-- Models `\d{1,2}/\d{1,2}/\d{4}` at the head of the input, with
backtracking over the two-or-one digit groups. -/
def dateAt (cs : List Char) : Option (Nat × Nat × Nat × List Char) :=
  (tryW cs).findSome? (fun p =>
    match p.2 with
    | '/' :: r2 =>
      (tryW r2).findSome? (fun q =>
        match q.2 with
        | '/' :: r4 =>
          match grab4 r4 with
          | some yr => some (p.1, q.1, yr.1, yr.2)
          | none => none
        | _ => none)
    | _ => none)

def publishedL : List Char := "published".data

def fromL : List Char := "from".data

def toL : List Char := "to".data

/-- Attempt of the header pattern
`published\s+from\s+(\d{1,2}/\d{1,2}/\d{4})\s+to\s+(\d{1,2}/\d{1,2}/\d{4})`
(case-insensitive) anchored at the head of the input, returning the first
date's `(first, second, year)` groups. -/
def headerAt (cs : List Char) : Option (Nat × Nat × Nat) :=
  match litCI publishedL cs with
  | none => none
  | some r1 =>
    match wsPlus r1 with
    | none => none
    | some r2 =>
      match litCI fromL r2 with
      | none => none
      | some r3 =>
        match wsPlus r3 with
        | none => none
        | some r4 =>
          match dateAt r4 with
          | none => none
          | some (a, b, y, r5) =>
            match wsPlus r5 with
            | none => none
            | some r6 =>
              match litCI toL r6 with
              | none => none
              | some r7 =>
                match wsPlus r7 with
                | none => none
                | some r8 =>
                  match dateAt r8 with
                  | some _ => some (a, b, y)
                  | none => none

/-- Models `re.search` of the header pattern: leftmost successful
attempt. -/
def headerGo : List Char → Option (Nat × Nat × Nat)
  | [] => none
  | c :: rest => headerAt (c :: rest) <|> headerGo rest

/-- Header search on the document text (`main.py` 178). -/
def headerSearch (s : String) : Option (Nat × Nat × Nat) := headerGo s.data

/-- Models `dateutil.parser.parse("a/b/y").year` on the header date
groups: month-first, falling back to day-first when the first number
cannot be a month, erroring when no valid calendar date results (the
behaviour of `dateutil` on slash dates with a 4-digit year and default
settings). -/
def pyDateutilMDY (a b y : Nat) : Option Nat :=
  if 1 ≤ a ∧ a ≤ 12 ∧ 1 ≤ b ∧ b ≤ daysInMonth y a ∧ 1 ≤ y ∧ y ≤ 9999 then some y
  else if 1 ≤ b ∧ b ≤ 12 ∧ 1 ≤ a ∧ a ≤ daysInMonth y b ∧ 1 ≤ y ∧ y ≤ 9999 then some y
  else none

/-- Models lines 176-182 of `main.py`: the reference year is the first
header date's year when the header matches (an unparseable header date
raises out of the function, modelled as `Except.error ()`), and the
current year in the configured timezone otherwise (`nowYear`). -/
def resolveYear (txt : String) (nowYear : Nat) : Except Unit Nat :=
  match headerSearch txt with
  | some (a, b, y) =>
    match pyDateutilMDY a b y with
    | some yr => Except.ok yr
    | none => Except.error ()
  | none => Except.ok nowYear

/-- Attempt of `\bday\s*off\b` (case-insensitive) anchored at the head of
the input; the caller guarantees the left word boundary. -/
def dayOffAt (cs : List Char) : Bool :=
  match cs with
  | c1 :: c2 :: c3 :: rest =>
    if c1.toLower == 'd' && c2.toLower == 'a' && c3.toLower == 'y' then
      match rest.dropWhile pyWs with
      | o1 :: o2 :: o3 :: rest2 =>
        o1.toLower == 'o' && o2.toLower == 'f' && o3.toLower == 'f' &&
        (match rest2 with
         | [] => true
         | c :: _ => !isWordC c)
      | _ => false
    else false
  | _ => false

/-- Scan for `\bday\s*off\b`, tracking whether the previous character was
a word character (for the left boundary). -/
def dayOffGo (prevW : Bool) : List Char → Bool
  | [] => false
  | c :: rest => (!prevW && dayOffAt (c :: rest)) || dayOffGo (isWordC c) rest

/-- Models `re.search(r"\bday\s*off\b", time_cell, re.I)` (`main.py` 207). -/
def dayOffFound (s : String) : Bool := dayOffGo false s.data

/-- Attempt of `(\d{1,2})/(\d{1,2})` anchored at the head of the input. -/
def mmddAt (cs : List Char) : Option (Nat × Nat) :=
  (tryW cs).findSome? (fun p =>
    match p.2 with
    | '/' :: r2 => (tryW r2).findSome? (fun q => some (p.1, q.1))
    | _ => none)

/-- Models `re.search(r"(\d{1,2})/(\d{1,2})", date_cell)` (`main.py` 211). -/
def mmddGo : List Char → Option (Nat × Nat)
  | [] => none
  | c :: rest => mmddAt (c :: rest) <|> mmddGo rest

def enDashC : Char := '–'

def emDashC : Char := '—'

/-- Replacement of an en or em dash by a hyphen, identity elsewhere. -/
def dashRepl (c : Char) : Char := if c == enDashC || c == emDashC then '-' else c

/-- Models `time_cell.replace("–", "-").replace("—", "-")` (`main.py`
217); both dashes are single characters, so the substring replaces are a
character map. -/
def replaceDashes (s : String) : String := String.mk (s.data.map dashRepl)

/-- Fuel-driven scanner of `re.sub(r"\\s*-\\s*", "-", norm)` (`main.py`
219): every dash, together with the whitespace runs around it, collapses
to a bare dash.  One unit of fuel is spent per step and every step
consumes at least one character, so `l.length` fuel always suffices; the
fuel keeps the recursion structural (hence kernel-computable). -/
def subWsDashGo : Nat → List Char → List Char
  | 0, l => l
  | _ + 1, [] => []
  | fuel + 1, c :: rest =>
    if c == '-' then '-' :: subWsDashGo fuel (rest.dropWhile pyWs)
    else if pyWs c then
      match rest.dropWhile pyWs with
      | '-' :: rest2 => '-' :: subWsDashGo fuel (rest2.dropWhile pyWs)
      | _ => c :: rest.takeWhile pyWs ++ subWsDashGo fuel (rest.dropWhile pyWs)
    else c :: subWsDashGo fuel rest

/-- Models `re.sub(r"\\s*-\\s*", "-", norm)` (`main.py` 219). -/
def subWsDash (l : List Char) : List Char := subWsDashGo l.length l

/-- Normalised time cell (`main.py` 217-219): dash variants replaced by
`-`, whitespace around dashes removed. -/
def normalizeTimeCell (cell : String) : String :=
  String.mk (subWsDash (replaceDashes cell).data)

/-- Models Python `str.split("-")`: split at every dash. -/
def splitDash : List Char → List (List Char)
  | [] => [[]]
  | c :: rest =>
    if c == '-' then [] :: splitDash rest
    else
      match splitDash rest with
      | g :: gs => (c :: g) :: gs
      | [] => [[c]]

/-- Models lines 216-225 of `main.py`: normalise the separators of a time
cell, require exactly two dash-delimited parts, and strip each. -/
def splitTimeCell (cell : String) : Option (String × String) :=
  match splitDash (normalizeTimeCell cell).data with
  | [a, b] => some (pyStrip (String.mk a), pyStrip (String.mk b))
  | _ => none

/-- Models `\d{1,2}` at the head of the input, greedy (no backtrack: the
callers' follow-sets never overlap with a digit). -/
def grabD12 : List Char → Option (Nat × List Char)
  | c1 :: c2 :: rest =>
    if c1.isDigit then
      if c2.isDigit then some (dval c1 * 10 + dval c2, rest) else some (dval c1, c2 :: rest)
    else none
  | [c1] => if c1.isDigit then some (dval c1, []) else none
  | [] => none

/-- Models how `dateutil.parser.parse` reads the time `t` of a composite
string `"YYYY-MM-DD t"` built by the row loop: an empty `t` is midnight
(the string degenerates to a date), `H`, `H:M`, and `H:M:S` forms with
one or two digits per group are accepted under the `datetime` field
bounds, anything else raises.  Exotic `dateutil` time spellings that the
schedule format never produces (meridians, fractions) are out of scope
and modelled as errors. -/
def parseTim : List Char → Option (Nat × Nat × Nat)
  | [] => some (0, 0, 0)
  | cs =>
    match grabD12 cs with
    | none => none
    | some (h, rest) =>
      match rest with
      | [] => if h ≤ 23 then some (h, 0, 0) else none
      | ':' :: r2 =>
        match grabD12 r2 with
        | none => none
        | some (mi, r3) =>
          match r3 with
          | [] => if h ≤ 23 ∧ mi ≤ 59 then some (h, mi, 0) else none
          | ':' :: r4 =>
            match grabD12 r4 with
            | some (sec, []) =>
              if h ≤ 23 ∧ mi ≤ 59 ∧ sec ≤ 59 then some (h, mi, sec) else none
            | _ => none
          | _ => none
      | _ => none

/-- Models `dtparse.parse(f"{year}-{mm:02d}-{dd:02d} {t}")` (`main.py`
228-229): the date components must form a valid `datetime` date and the
time part must parse; `dateutil` strips the surrounding whitespace of the
time token. -/
def dtparseYMDT (y mm dd : Nat) (t : String) : Option DateTime :=
  if 1 ≤ y ∧ y ≤ 9999 ∧ 1 ≤ mm ∧ mm ≤ 12 ∧ 1 ≤ dd ∧ dd ≤ daysInMonth y mm then
    match parseTim (pyStrip t).data with
    | some (h, mi, sec) => some ⟨y, mm, dd, h, mi, sec⟩
    | none => none
  else none

/-- Both halves of a split time cell parsed against the row date
(`main.py` 216-232 after the day-off check). -/
def timeRangeOf (y mm dd : Nat) (cell : String) : Option (DateTime × DateTime) :=
  match splitTimeCell cell with
  | none => none
  | some (st, et) =>
    match dtparseYMDT y mm dd st, dtparseYMDT y mm dd et with
    | some sdt, some edt => some (sdt, edt)
    | _, _ => none

/-- Models one iteration of the row loop (`main.py` 198-239) on the
stripped cell texts of a `tr`: `none` when the row is skipped, otherwise
the emitted shift. -/
def processRow (year : Nat) (tds : List String) : Option Shift :=
  if tds.length < 2 then none
  else if dayOffFound (tds.getD 1 emptyS) then none
  else
    match mmddGo (tds.getD 0 emptyS).data with
    | none => none
    | some (mm, dd) =>
      match timeRangeOf year mm dd (tds.getD 1 emptyS) with
      | none => none
      | some (sdt, edt) => some ⟨sdt, edt, SHIFT_TITLE, none⟩

def tableS : String := "table"

def thS : String := "th"

def trS : String := "tr"

def tdS : String := "td"

def tbodyS : String := "tbody"

def labelDateS : String := "date"

def labelTimeS : String := "time"

def labelDeptS : String := "department"

def labelJobS : String := "job"

/-- The four required header labels (`main.py` 188). -/
def reqLabels : List String := [labelDateS, labelTimeS, labelDeptS, labelJobS]

/-- Models lines 186-190 of `main.py`: the set of lowercased `th` texts
of a table must contain the four labels. -/
def isTargetTable (tbl : HNode) : Bool :=
  reqLabels.all (fun l => ((findTagIn thS tbl).map (fun th => pyLower (getTextStrip th))).contains l)

/-- Models the table-location loop (`main.py` 185-190): the first table
in document order passing the header check. -/
def targetTable (doc : List HNode) : Option HNode :=
  (findTagList tableS doc).find? isTargetTable

/-- Models `target.find("tbody") or target` (`main.py` 195). -/
def rowSource (tgt : HNode) : HNode := ((findTagIn tbodyS tgt).head?).getD tgt

/-- Stripped `td` texts of a row (`main.py` 199). -/
def cellsOf (tr : HNode) : List String := (findTagIn tdS tr).map getTextStrip

/-- Models `_parse_synerion_table` (`main.py` 164-241) on the parsed HTML
forest.  `nowYear` is the current year in the configured timezone
(`datetime.now(ZoneInfo(tz)).year`); an unparseable header date raises,
modelled as `Except.error ()`. -/
def _parse_synerion_table (doc : List HNode) (nowYear : Nat) : Except Unit (List Shift) :=
  match resolveYear (docText doc) nowYear with
  | Except.error e => Except.error e
  | Except.ok year =>
    match targetTable doc with
    | none => Except.ok []
    | some tgt =>
      Except.ok ((findTagIn trS (rowSource tgt)).filterMap (fun tr => processRow year (cellsOf tr)))

/-! ## Batch driver

The Gmail listing (`_gmail_messages`) is external: its result, a
newest-first list of up to `limit` matching messages, is the driver's
input here, and `_get_message_html` is modelled as reading the message's
parsed HTML body. -/

/-- A fetched notification message: its opaque id and its decoded HTML
body, already parsed to the tree model. -/
structure GMessage where
  id : String
  html : List HNode

/-- Models `_recent_published_messages` (`main.py` 89-95): the
newest-first Gmail listing, reversed to oldest-first. -/
def _recent_published_messages (msgs : List GMessage) : List GMessage := msgs.reverse

def evtS : String := "evt"

/-- Fresh server-assigned event id for the `n`-th insert of a run. -/
def freshId (n : Nat) : String := evtS ++ toString n

/-- The inner shift loop of `_process_recent_emails` (`main.py`
104-109): upsert each shift in order, counting `created` and `updated`
outcomes; threads the store and the id supply. -/
def processShifts : List Shift → List CalEvent → Nat → Nat × Nat × List CalEvent × Nat
  | [], store, nid => (0, 0, store, nid)
  | s :: rest, store, nid =>
    match _upsert_event store s (freshId nid) with
    | (st, store2) =>
      match processShifts rest store2 (nid + 1) with
      | (c, u, store3, nid3) =>
        ((if st = strCreated then 1 else 0) + c, (if st = strUpdated then 1 else 0) + u,
         store3, nid3)

/-- The message loop of `_process_recent_emails` over an already-ordered
message list: parse each body and upsert its shifts; a parse exception
aborts the run. -/
def goEmails : List GMessage → List CalEvent → Nat → Nat → Except Unit (Nat × Nat × List CalEvent × Nat)
  | [], store, nid, _ => Except.ok (0, 0, store, nid)
  | m :: rest, store, nid, nowYear =>
    match _parse_synerion_table m.html nowYear with
    | Except.error e => Except.error e
    | Except.ok shifts =>
      match processShifts shifts store nid with
      | (c, u, store2, nid2) =>
        match goEmails rest store2 nid2 nowYear with
        | Except.error e => Except.error e
        | Except.ok (c2, u2, store3, nid3) => Except.ok (c + c2, u + u2, store3, nid3)

/-- Models `_process_recent_emails` (`main.py` 97-110): reverse the
newest-first listing and process every shift of every message, returning
the `(created, updated)` totals together with the final store and id
supply. -/
def _process_recent_emails (msgs : List GMessage) (store : List CalEvent) (nid : Nat)
    (nowYear : Nat) : Except Unit (Nat × Nat × List CalEvent × Nat) :=
  goEmails (_recent_published_messages msgs) store nid nowYear

/-- Spec-side description of one message-batch run, written from the
words of spec sections 4.4 and 8: process the messages in the given
(oldest-first) order, upserting each parsed shift in sequence, and record
the upsert outcome of every shift in processing order. -/
def shiftStatuses : List Shift → List CalEvent → Nat → List String × List CalEvent × Nat
  | [], store, nid => ([], store, nid)
  | s :: rest, store, nid =>
    match _upsert_event store s (freshId nid) with
    | (st, store2) =>
      match shiftStatuses rest store2 (nid + 1) with
      | (sts, store3, nid3) => (st :: sts, store3, nid3)

/-- Spec-side description, continued: the statuses of a whole run over an
oldest-first message list. -/
def runStatuses : List GMessage → List CalEvent → Nat → Nat → Except Unit (List String × List CalEvent × Nat)
  | [], store, nid, _ => Except.ok ([], store, nid)
  | m :: rest, store, nid, nowYear =>
    match _parse_synerion_table m.html nowYear with
    | Except.error e => Except.error e
    | Except.ok shifts =>
      match shiftStatuses shifts store nid with
      | (sts, store2, nid2) =>
        match runStatuses rest store2 nid2 nowYear with
        | Except.error e => Except.error e
        | Except.ok (sts2, store3, nid3) => Except.ok (sts ++ sts2, store3, nid3)

/-! ## Order lemmas for the day window -/

/-- Midnight of an instant's day does not exceed the instant. -/
theorem midnight_key_le (t : DateTime) : (midnightOf t).key ≤ t.key := by
  simp only [midnightOf, DateTime.key, DateTime.dayKey, DateTime.tod]
  omega

/-- A representable instant precedes the midnight following its day. -/
theorem key_lt_addDay_midnight (t : DateTime) (h : WFdt t) :
    t.key < (addDay (midnightOf t)).key := by
  obtain ⟨h1, h2, h3, h4, h5, h6, h7, h8, h9⟩ := h
  simp only [addDay, midnightOf]
  split_ifs with c1 c2 <;>
    simp only [DateTime.key, DateTime.dayKey, DateTime.tod, daysInMonth] at * <;>
    split_ifs at * <;> omega

theorem ltb_iff_key (a b : DateTime) : DateTime.ltb a b = true ↔ a.key < b.key := by
  simp [DateTime.ltb]

/-- An event carrying a well-formed shift's exact time range lies in the
day window of the shift's start. -/
theorem dayWindowF_self (s : Shift) (hwf : ShiftWF s) (e : CalEvent)
    (hst : e.start = s.start) (hsp : e.stop = s.stop) : dayWindowF s.start e = true := by
  obtain ⟨hw1, hw2, hlt⟩ := hwf
  rw [ltb_iff_key] at hlt
  simp only [dayWindowF, Bool.and_eq_true, ltb_iff_key, hst, hsp]
  constructor
  · exact lt_of_le_of_lt (midnight_key_le s.start) hlt
  · exact key_lt_addDay_midnight s.start hw1

/-- `_find_existing` finds nothing when no stored event is both in the
day window and fingerprint-tagged. -/
theorem find_existing_none (store : List CalEvent) (h : String) (sd : DateTime)
    (hn : ∀ e ∈ store, ¬(dayWindowF sd e = true ∧ e.hash = some h)) :
    _find_existing store h sd = none := by
  unfold _find_existing
  rw [List.head?_eq_none_iff]
  rw [List.filter_eq_nil_iff]
  intro e he
  simp only [Bool.and_eq_true, beq_iff_eq, not_and]
  intro hw hh
  exact absurd ⟨hw, hh⟩ (hn e he)

/-! ## Claim C1 -/

/-- C1.  For every shift, `_upsert_event` returns exactly one of
`created`/`updated`/`skipped_overlap` and never deletes an event (the
store never shrinks and every stored id survives); whenever the store
holds an event in the shift's calendar-day window whose private hash
equals the shift's fingerprint, the result is `updated` and the found
event's body (time range, title, metadata) is overwritten in place; and a
run that returns `created` is followed, on the resulting store, by
`updated` for the same shift — never a second `created`. -/
theorem c1_upsert_contract (store : List CalEvent) (s : Shift) (nid nid2 : String)
    (hwf : ShiftWF s) :
    ((_upsert_event store s nid).1 = strCreated ∨ (_upsert_event store s nid).1 = strUpdated ∨
      (_upsert_event store s nid).1 = strSkipped)
    ∧ store.length ≤ (_upsert_event store s nid).2.length
    ∧ (∀ e, e ∈ store → ∃ e2, e2 ∈ (_upsert_event store s nid).2 ∧ e2.id = e.id)
    ∧ (∀ e, e ∈ store → dayWindowF s.start e = true → e.hash = some (_hash_shift s) →
        (_upsert_event store s nid).1 = strUpdated)
    ∧ (∀ e, _find_existing store (_hash_shift s) s.start = some e →
        _upsert_event store s nid = (strUpdated, updateById store e.id s))
    ∧ ((_upsert_event store s nid).1 = strCreated →
        (_upsert_event (_upsert_event store s nid).2 s nid2).1 = strUpdated)
    := by
  have hmem_upd : ∀ e, e ∈ store → dayWindowF s.start e = true → e.hash = some (_hash_shift s) →
      ∃ e', _find_existing store (_hash_shift s) s.start = some e' := by
    intro e he hw hh
    unfold _find_existing
    have hfmem : e ∈ store.filter
        (fun e => dayWindowF s.start e && (e.hash == some (_hash_shift s))) := by
      rw [List.mem_filter]
      exact ⟨he, by simp [hw, hh]⟩
    match hres : (store.filter
        (fun e => dayWindowF s.start e && (e.hash == some (_hash_shift s)))) with
    | [] => rw [hres] at hfmem; exact absurd hfmem (List.not_mem_nil e)
    | x :: xs => exact ⟨x, rfl⟩
  match hfe : _find_existing store (_hash_shift s) s.start with
  | some e0 =>
    have hup : _upsert_event store s nid = (strUpdated, updateById store e0.id s) := by
      unfold _upsert_event
      rw [hfe]
    refine ⟨by rw [hup]; right; left; rfl, ?_, ?_, ?_, ?_, ?_⟩
    · rw [hup]
      simp [updateById]
    · intro e he
      rw [hup]
      simp only [updateById]
      refine ⟨if e.id == e0.id then mkBody s e.id else e, List.mem_map_of_mem _ he, ?_⟩
      by_cases hc : e.id == e0.id <;> simp [hc, mkBody]
    · intro e _ _ _
      rw [hup]
    · intro e hse
      injection hse with h2
      rw [← h2]
      exact hup
    · intro habs
      rw [hup] at habs
      have habs2 : strUpdated = strCreated := habs
      exact absurd habs2 (by decide)
  | none =>
    by_cases hov : _has_overlap store s.start s.stop s.summary
    · have hup : _upsert_event store s nid = (strSkipped, store) := by
        unfold _upsert_event
        rw [hfe]
        simp [hov]
      refine ⟨by rw [hup]; right; right; rfl, by rw [hup], ?_, ?_, ?_, ?_⟩
      · intro e he
        rw [hup]
        exact ⟨e, he, rfl⟩
      · intro e he hw hh
        obtain ⟨e', he'⟩ := hmem_upd e he hw hh
        rw [hfe] at he'
        exact absurd he' (by simp)
      · intro e hse
        exact absurd hse (by simp)
      · intro habs
        rw [hup] at habs
        have habs2 : strSkipped = strCreated := habs
        exact absurd habs2 (by decide)
    · have hup : _upsert_event store s nid = (strCreated, store ++ [mkBody s nid]) := by
        unfold _upsert_event
        rw [hfe]
        simp [hov]
      refine ⟨by rw [hup]; left; rfl, by rw [hup]; simp, ?_, ?_, ?_, ?_⟩
      · intro e he
        rw [hup]
        exact ⟨e, by simp [he], rfl⟩
      · intro e he hw hh
        obtain ⟨e', he'⟩ := hmem_upd e he hw hh
        rw [hfe] at he'
        exact absurd he' (by simp)
      · intro e hse
        exact absurd hse (by simp)
      · intro _
        rw [hup]
        have hfilter : (store ++ [mkBody s nid]).filter
            (fun e => dayWindowF s.start e && (e.hash == some (_hash_shift s)))
            = [mkBody s nid] := by
          rw [List.filter_append]
          have h1 : store.filter
              (fun e => dayWindowF s.start e && (e.hash == some (_hash_shift s))) = [] := by
            have h0 := hfe
            unfold _find_existing at h0
            rwa [List.head?_eq_none_iff] at h0
          rw [h1]
          simp only [List.nil_append]
          have hwd : dayWindowF s.start (mkBody s nid) = true :=
            dayWindowF_self s hwf (mkBody s nid) rfl rfl
          have hh2 : ((mkBody s nid).hash == some (_hash_shift s)) = true := by
            simp [mkBody]
          simp [List.filter_cons, hwd, hh2]
        unfold _upsert_event _find_existing
        rw [hfilter]
        rfl

instance (s : Shift) : Decidable (ShiftWF s) := by
  unfold ShiftWF
  infer_instance

def e1S : String := "e1"

def e2S : String := "e2"

def m1S : String := "m1"

def dentistS : String := "Dentist"

def swapS : String := "Work - swap"

/-- Witness shift: 2024-10-07, 09:00-17:00, configured title. -/
def wShiftA : Shift := ⟨⟨2024, 10, 7, 9, 0, 0⟩, ⟨2024, 10, 7, 17, 0, 0⟩, SHIFT_TITLE, none⟩

/-- Witness store event: an unrelated manual event on the same day. -/
def wEvtA : CalEvent :=
  ⟨m1S, some dentistS, ⟨2024, 10, 7, 12, 0, 0⟩, ⟨2024, 10, 7, 13, 0, 0⟩, none, EVENT_COLOR_ID, true⟩

set_option maxRecDepth 40000 in
set_option maxHeartbeats 2000000 in
/-- Witness for C1 at a concrete store and shift. -/
theorem c1_upsert_contract_witness :
    ShiftWF wShiftA ∧
    (((_upsert_event [wEvtA] wShiftA e1S).1 = strCreated ∨
      (_upsert_event [wEvtA] wShiftA e1S).1 = strUpdated ∨
      (_upsert_event [wEvtA] wShiftA e1S).1 = strSkipped)
    ∧ [wEvtA].length ≤ (_upsert_event [wEvtA] wShiftA e1S).2.length
    ∧ (∀ e, e ∈ [wEvtA] → ∃ e2, e2 ∈ (_upsert_event [wEvtA] wShiftA e1S).2 ∧ e2.id = e.id)
    ∧ (∀ e, e ∈ [wEvtA] → dayWindowF wShiftA.start e = true →
        e.hash = some (_hash_shift wShiftA) → (_upsert_event [wEvtA] wShiftA e1S).1 = strUpdated)
    ∧ (∀ e, _find_existing [wEvtA] (_hash_shift wShiftA) wShiftA.start = some e →
        _upsert_event [wEvtA] wShiftA e1S = (strUpdated, updateById [wEvtA] e.id wShiftA))
    ∧ ((_upsert_event [wEvtA] wShiftA e1S).1 = strCreated →
        (_upsert_event (_upsert_event [wEvtA] wShiftA e1S).2 wShiftA e2S).1 = strUpdated)) :=
  ⟨by decide, c1_upsert_contract [wEvtA] wShiftA e1S e2S (by decide)⟩

/-! ## Claims C2 and C3 -/

/-- Shift with the given date, start and end hours/minutes, the
configured title and no location — the exact shape the parser emits. -/
def shiftAt (y m d h1 mi1 h2 mi2 : Nat) : Shift :=
  ⟨⟨y, m, d, h1, mi1, 0⟩, ⟨y, m, d, h2, mi2, 0⟩, SHIFT_TITLE, none⟩

set_option maxRecDepth 40000 in
set_option maxHeartbeats 4000000 in
/-- Counterexample to C2.  On 2024-10-07, after `_upsert_event` created
the 09:00-17:00 event, upserting the corrected 10:00-18:00 shift (whose
fingerprint indeed differs) returns `skipped_overlap`, not `created`:
the event created from the old shift overlaps the new window and carries
the configured title. -/
theorem c2_counterexample :
    _hash_shift (shiftAt 2024 10 7 10 0 18 0) ≠ _hash_shift (shiftAt 2024 10 7 9 0 17 0) ∧
    (_upsert_event [] (shiftAt 2024 10 7 9 0 17 0) e1S).1 = strCreated ∧
    (_upsert_event (_upsert_event [] (shiftAt 2024 10 7 9 0 17 0) e1S).2
      (shiftAt 2024 10 7 10 0 18 0) e2S).1 = strSkipped ∧
    (_upsert_event (_upsert_event [] (shiftAt 2024 10 7 9 0 17 0) e1S).2
      (shiftAt 2024 10 7 10 0 18 0) e2S).1 ≠ strCreated := by
  refine ⟨by decide, rfl, by decide, by decide⟩

/-- Shared helper: when no stored event of the shift's day carries the
shift's fingerprint while some event overlapping `[start, end)` has a
title starting (stripped, case-insensitively) with the shift title,
`_upsert_event` returns `skipped_overlap` and leaves the store as is. -/
theorem upsert_skips (store : List CalEvent) (s : Shift) (nid : String)
    (hnf : ∀ e ∈ store, dayWindowF s.start e = true → e.hash ≠ some (_hash_shift s))
    (e : CalEvent) (he : e ∈ store)
    (hov : overlapF s.start s.stop e = true)
    (ht : pyStartsWith (pyLower (pyStrip (optStr e.summary))) (pyLower s.summary) = true) :
    _upsert_event store s nid = (strSkipped, store) := by
  have hfind : _find_existing store (_hash_shift s) s.start = none := by
    apply find_existing_none
    intro e2 he2 hcon
    exact hnf e2 he2 hcon.1 hcon.2
  have hhov : _has_overlap store s.start s.stop s.summary = true := by
    unfold _has_overlap
    rw [List.any_eq_true]
    exact ⟨e, List.mem_filter.mpr ⟨he, hov⟩, ht⟩
  unfold _upsert_event
  rw [hfind, hhov]
  simp

/-- C2, amended.  For any calendar date, after a `created` run for the
09:00-17:00 shift on the empty store, upserting the corrected
10:00-18:00 shift of the same date (fingerprint differing) returns
`skipped_overlap` and performs no write — not `created`: the previously
created event overlaps the corrected window and its title starts with
the configured shift title. -/
theorem c2_amended_skip (y m d : Nat) (id1 id2 : String)
    (hne : _hash_shift (shiftAt y m d 10 0 18 0) ≠ _hash_shift (shiftAt y m d 9 0 17 0)) :
    (_upsert_event [] (shiftAt y m d 9 0 17 0) id1).1 = strCreated ∧
    _upsert_event (_upsert_event [] (shiftAt y m d 9 0 17 0) id1).2
        (shiftAt y m d 10 0 18 0) id2 =
      (strSkipped, (_upsert_event [] (shiftAt y m d 9 0 17 0) id1).2) := by
  have h1 : _upsert_event [] (shiftAt y m d 9 0 17 0) id1 =
      (strCreated, [mkBody (shiftAt y m d 9 0 17 0) id1]) := rfl
  refine ⟨by rw [h1], ?_⟩
  rw [h1]
  apply upsert_skips _ _ _ ?_ (mkBody (shiftAt y m d 9 0 17 0) id1)
      (List.mem_singleton_self _) ?_ ?_
  · intro e he hw
    rw [List.mem_singleton] at he
    rw [he]
    intro hcon
    have h2 : some (_hash_shift (shiftAt y m d 9 0 17 0)) =
        some (_hash_shift (shiftAt y m d 10 0 18 0)) := hcon
    injection h2 with h3
    exact hne h3.symm
  · simp only [overlapF, Bool.and_eq_true, ltb_iff_key, mkBody, shiftAt,
      DateTime.key, DateTime.dayKey, DateTime.tod]
    constructor <;> omega
  · show pyStartsWith (pyLower (pyStrip (optStr (some SHIFT_TITLE)))) (pyLower SHIFT_TITLE) = true
    decide

set_option maxRecDepth 40000 in
set_option maxHeartbeats 2000000 in
/-- Witness for the amended C2 at the concrete date 2024-10-07. -/
theorem c2_amended_skip_witness :
    (_hash_shift (shiftAt 2024 10 7 10 0 18 0) ≠ _hash_shift (shiftAt 2024 10 7 9 0 17 0)) ∧
    ((_upsert_event [] (shiftAt 2024 10 7 9 0 17 0) e1S).1 = strCreated ∧
      _upsert_event (_upsert_event [] (shiftAt 2024 10 7 9 0 17 0) e1S).2
          (shiftAt 2024 10 7 10 0 18 0) e2S =
        (strSkipped, (_upsert_event [] (shiftAt 2024 10 7 9 0 17 0) e1S).2)) :=
  ⟨by decide, c2_amended_skip 2024 10 7 e1S e2S (by decide)⟩

/-- C3.  When no fingerprint-matching event exists on the shift's day
and some stored event overlapping `[start, end)` bears a title that,
stripped and lowercased, starts with the configured shift title,
`_upsert_event` returns `skipped_overlap` and the event store is
unchanged: no insert and no update happen. -/
theorem c3_overlap_protection (store : List CalEvent) (s : Shift) (nid : String)
    (hnf : ∀ e ∈ store, dayWindowF s.start e = true → e.hash ≠ some (_hash_shift s))
    (e : CalEvent) (he : e ∈ store)
    (hov : overlapF s.start s.stop e = true)
    (ht : pyStartsWith (pyLower (pyStrip (optStr e.summary))) (pyLower s.summary) = true) :
    _upsert_event store s nid = (strSkipped, store) :=
  upsert_skips store s nid hnf e he hov ht

/-- Witness store event for C3: the manual event "Work - swap",
12:00-20:00, carrying no fingerprint metadata. -/
def wEvtB : CalEvent :=
  ⟨e1S, some swapS, ⟨2024, 10, 7, 12, 0, 0⟩, ⟨2024, 10, 7, 20, 0, 0⟩, none, EVENT_COLOR_ID, true⟩

set_option maxRecDepth 40000 in
set_option maxHeartbeats 2000000 in
/-- Witness for C3: the spec's own scenario (manual "Work - swap"
12:00-20:00 against a parsed 12:00-20:00 shift on the same date). -/
theorem c3_overlap_protection_witness :
    (∀ e ∈ [wEvtB], dayWindowF (shiftAt 2024 10 7 12 0 20 0).start e = true →
      e.hash ≠ some (_hash_shift (shiftAt 2024 10 7 12 0 20 0))) ∧
    wEvtB ∈ [wEvtB] ∧
    overlapF (shiftAt 2024 10 7 12 0 20 0).start (shiftAt 2024 10 7 12 0 20 0).stop wEvtB = true ∧
    pyStartsWith (pyLower (pyStrip (optStr wEvtB.summary)))
      (pyLower (shiftAt 2024 10 7 12 0 20 0).summary) = true ∧
    _upsert_event [wEvtB] (shiftAt 2024 10 7 12 0 20 0) e2S = (strSkipped, [wEvtB]) :=
  ⟨by decide, by decide, by decide, by decide,
   c3_overlap_protection [wEvtB] (shiftAt 2024 10 7 12 0 20 0) e2S (by decide) wEvtB (by decide)
     (by decide) (by decide)⟩

/-! ## Claim C4 -/

theorem digitChar_inj10 (a b : Nat) (ha : a < 10) (hb : b < 10)
    (h : Nat.digitChar a = Nat.digitChar b) : a = b := by
  have hfin : ∀ x : Fin 10, ∀ y : Fin 10, Nat.digitChar x.val = Nat.digitChar y.val →
      x.val = y.val := by decide
  exact hfin ⟨a, ha⟩ ⟨b, hb⟩ h

theorem dig_inj (a b : Nat) (h : dig a = dig b) : a % 10 = b % 10 :=
  digitChar_inj10 _ _ (Nat.mod_lt _ (by omega)) (Nat.mod_lt _ (by omega)) h

/-- The hash key determines the start instant and the end time-of-day of
a shift whose boundary instants are representable: the key's layout
(`YYYY-MM-DD|HH:MM:SS|HH:MM:SS`) is fixed-width with `|` separators. -/
theorem hashKeyOf_inj (s1 s2 : Shift)
    (w1 : WFdt s1.start) (w2 : WFdt s1.stop) (w3 : WFdt s2.start) (w4 : WFdt s2.stop)
    (h : hashKeyOf s1 = hashKeyOf s2) :
    s1.start = s2.start ∧ s1.stop.hour = s2.stop.hour ∧ s1.stop.minute = s2.stop.minute ∧
      s1.stop.second = s2.stop.second := by
  obtain ⟨a1, a2, a3, a4, a5, a6, a7, a8, a9⟩ := w1
  obtain ⟨b1, b2, b3, b4, b5, b6, b7, b8, b9⟩ := w2
  obtain ⟨c1, c2, c3, c4, c5, c6, c7, c8, c9⟩ := w3
  obtain ⟨d1, d2, d3, d4, d5, d6, d7, d8, d9⟩ := w4
  simp only [hashKeyOf, dateStr, timeStr, four, two, List.cons_append, List.nil_append,
    List.append_assoc, List.cons.injEq, List.append_nil] at h
  obtain ⟨hy1, hy2, hy3, hy4, _, hm1, hm2, _, hd1, hd2, _,
    hh1, hh2, _, hmi1, hmi2, _, hs1, hs2, _,
    hH1, hH2, _, hMI1, hMI2, _, hS1, hS2, _⟩ := h
  have ey1 := dig_inj _ _ hy1
  have ey2 := dig_inj _ _ hy2
  have ey3 := dig_inj _ _ hy3
  have ey4 := dig_inj _ _ hy4
  have em1 := dig_inj _ _ hm1
  have em2 := dig_inj _ _ hm2
  have ed1 := dig_inj _ _ hd1
  have ed2 := dig_inj _ _ hd2
  have eh1 := dig_inj _ _ hh1
  have eh2 := dig_inj _ _ hh2
  have emi1 := dig_inj _ _ hmi1
  have emi2 := dig_inj _ _ hmi2
  have es1 := dig_inj _ _ hs1
  have es2 := dig_inj _ _ hs2
  have eH1 := dig_inj _ _ hH1
  have eH2 := dig_inj _ _ hH2
  have eMI1 := dig_inj _ _ hMI1
  have eMI2 := dig_inj _ _ hMI2
  have eS1 := dig_inj _ _ hS1
  have eS2 := dig_inj _ _ hS2
  have hday1 : s1.start.day ≤ 31 := by
    have : daysInMonth s1.start.year s1.start.month ≤ 31 := by
      unfold daysInMonth
      split_ifs <;> omega
    omega
  have hday2 : s2.start.day ≤ 31 := by
    have : daysInMonth s2.start.year s2.start.month ≤ 31 := by
      unfold daysInMonth
      split_ifs <;> omega
    omega
  refine ⟨?_, by omega, by omega, by omega⟩
  have : s1.start.year = s2.start.year := by omega
  have : s1.start.month = s2.start.month := by omega
  have : s1.start.day = s2.start.day := by omega
  have : s1.start.hour = s2.start.hour := by omega
  have : s1.start.minute = s2.start.minute := by omega
  have : s1.start.second = s2.start.second := by omega
  cases hs1 : s1.start
  cases hs2 : s2.start
  simp_all

/-- C4.  The fingerprint is a function of exactly
`(start date, start time-of-day, end time-of-day)`: two shifts agreeing
on those fields — whatever their titles or locations — have equal
fingerprints, and two shifts of the same date differing in a boundary
time-of-day have different fingerprints.  Boundary sensitivity rests on
the hash keys of the two shifts being collision-free under the truncated
SHA-256 digest, taken here as the explicit hypothesis `hnc` and
discharged by computation in the witness; the keys themselves are proved
distinct via `hashKeyOf_inj`. -/
theorem c4_fingerprint_identity (s1 s2 : Shift)
    (hnc : hashKeyOf s1 ≠ hashKeyOf s2 → _hash_shift s1 ≠ _hash_shift s2) :
    ((s1.start = s2.start ∧ s1.stop.hour = s2.stop.hour ∧ s1.stop.minute = s2.stop.minute ∧
        s1.stop.second = s2.stop.second) → _hash_shift s1 = _hash_shift s2)
    ∧ (WFdt s1.start → WFdt s1.stop → WFdt s2.start → WFdt s2.stop →
        s1.start.year = s2.start.year → s1.start.month = s2.start.month →
        s1.start.day = s2.start.day →
        (s1.start.tod ≠ s2.start.tod ∨ s1.stop.tod ≠ s2.stop.tod) →
        _hash_shift s1 ≠ _hash_shift s2) := by
  constructor
  · rintro ⟨hst, hh, hmi, hs⟩
    have hk : hashKeyOf s1 = hashKeyOf s2 := by
      simp [hashKeyOf, dateStr, timeStr, two, four, dig, hst, hh, hmi, hs]
    unfold _hash_shift
    rw [hk]
  · intro w1 w2 w3 w4 _ _ _ hdiff
    apply hnc
    intro hkeq
    obtain ⟨hstart, hH, hMI, hS⟩ := hashKeyOf_inj s1 s2 w1 w2 w3 w4 hkeq
    rcases hdiff with hd | hd
    · exact hd (by rw [hstart])
    · exact hd (by simp [DateTime.tod, hH, hMI, hS])

set_option maxRecDepth 40000 in
set_option maxHeartbeats 4000000 in
/-- Witness for C4: 09:00-17:00 versus 10:00-17:00 on 2024-10-07 (start
boundary moved); the no-collision hypothesis is decided by computing both
digests. -/
theorem c4_fingerprint_identity_witness :
    (hashKeyOf (shiftAt 2024 10 7 9 0 17 0) ≠ hashKeyOf (shiftAt 2024 10 7 10 0 17 0) →
      _hash_shift (shiftAt 2024 10 7 9 0 17 0) ≠ _hash_shift (shiftAt 2024 10 7 10 0 17 0)) ∧
    (((shiftAt 2024 10 7 9 0 17 0).start = (shiftAt 2024 10 7 10 0 17 0).start ∧
        (shiftAt 2024 10 7 9 0 17 0).stop.hour = (shiftAt 2024 10 7 10 0 17 0).stop.hour ∧
        (shiftAt 2024 10 7 9 0 17 0).stop.minute = (shiftAt 2024 10 7 10 0 17 0).stop.minute ∧
        (shiftAt 2024 10 7 9 0 17 0).stop.second = (shiftAt 2024 10 7 10 0 17 0).stop.second) →
      _hash_shift (shiftAt 2024 10 7 9 0 17 0) = _hash_shift (shiftAt 2024 10 7 10 0 17 0))
    ∧ (WFdt (shiftAt 2024 10 7 9 0 17 0).start → WFdt (shiftAt 2024 10 7 9 0 17 0).stop →
        WFdt (shiftAt 2024 10 7 10 0 17 0).start → WFdt (shiftAt 2024 10 7 10 0 17 0).stop →
        (shiftAt 2024 10 7 9 0 17 0).start.year = (shiftAt 2024 10 7 10 0 17 0).start.year →
        (shiftAt 2024 10 7 9 0 17 0).start.month = (shiftAt 2024 10 7 10 0 17 0).start.month →
        (shiftAt 2024 10 7 9 0 17 0).start.day = (shiftAt 2024 10 7 10 0 17 0).start.day →
        ((shiftAt 2024 10 7 9 0 17 0).start.tod ≠ (shiftAt 2024 10 7 10 0 17 0).start.tod ∨
          (shiftAt 2024 10 7 9 0 17 0).stop.tod ≠ (shiftAt 2024 10 7 10 0 17 0).stop.tod) →
        _hash_shift (shiftAt 2024 10 7 9 0 17 0) ≠ _hash_shift (shiftAt 2024 10 7 10 0 17 0)) :=
  ⟨by decide, c4_fingerprint_identity (shiftAt 2024 10 7 9 0 17 0)
    (shiftAt 2024 10 7 10 0 17 0) (by decide)⟩

/-! ## Parser inversion lemmas -/

theorem parseTim_bounds (cs : List Char) (h mi se : Nat)
    (hp : parseTim cs = some (h, mi, se)) : h ≤ 23 ∧ mi ≤ 59 ∧ se ≤ 59 := by
  unfold parseTim at hp
  split at hp
  · simp only [Option.some.injEq, Prod.mk.injEq] at hp
    omega
  · split at hp
    · exact absurd hp (by simp)
    · split at hp
      · split_ifs at hp
        simp only [Option.some.injEq, Prod.mk.injEq] at hp
        omega
      · split at hp
        · exact absurd hp (by simp)
        · split at hp
          · split_ifs at hp with hcc
            simp only [Option.some.injEq, Prod.mk.injEq] at hp
            omega
          · split at hp
            · split_ifs at hp with hcc
              simp only [Option.some.injEq, Prod.mk.injEq] at hp
              omega
            · exact absurd hp (by simp)
          · exact absurd hp (by simp)
      · exact absurd hp (by simp)

/-- A successful composite parse yields exactly the requested (valid)
date with a valid time-of-day. -/
theorem dtparseYMDT_inv (y mm dd : Nat) (t : String) (dt : DateTime)
    (hp : dtparseYMDT y mm dd t = some dt) :
    WFdt dt ∧ dt.year = y ∧ dt.month = mm ∧ dt.day = dd := by
  unfold dtparseYMDT at hp
  split_ifs at hp with hcond
  cases hres : parseTim (pyStrip t).data with
  | none => rw [hres] at hp; exact absurd hp (by simp)
  | some tri =>
    obtain ⟨h1, mi1, se1⟩ := tri
    rw [hres] at hp
    injection hp with hp2
    obtain ⟨hb1, hb2, hb3⟩ := parseTim_bounds _ _ _ _ hres
    rw [← hp2]
    refine ⟨?_, rfl, rfl, rfl⟩
    unfold WFdt
    simp only
    omega

/-- An emitted row shift carries the reference year on both boundaries,
shares month and day across them, holds representable instants, and
bears the configured title and no location. -/
theorem processRow_inv (yr : Nat) (tds : List String) (s : Shift)
    (h : processRow yr tds = some s) :
    WFdt s.start ∧ WFdt s.stop ∧ s.start.year = yr ∧ s.stop.year = yr ∧
      s.start.month = s.stop.month ∧ s.start.day = s.stop.day ∧
      s.summary = SHIFT_TITLE ∧ s.location = none := by
  unfold processRow at h
  split_ifs at h with h1 h2
  split at h
  · exact absurd h (by simp)
  · rename_i mm dd hmd
    split at h
    · exact absurd h (by simp)
    · rename_i sdt edt htr
      injection h with h3
      unfold timeRangeOf at htr
      split at htr
      · exact absurd htr (by simp)
      · rename_i a b heq
        cases hd1 : dtparseYMDT yr mm dd a with
        | none => rw [hd1] at htr; exact absurd htr (by simp)
        | some sdt2 =>
          cases hd2 : dtparseYMDT yr mm dd b with
          | none => rw [hd1, hd2] at htr; exact absurd htr (by simp)
          | some edt2 =>
            rw [hd1, hd2] at htr
            injection htr with htr2
            obtain ⟨hw1, hy1, hm1, hdd1⟩ := dtparseYMDT_inv _ _ _ _ _ hd1
            obtain ⟨hw2, hy2, hm2, hdd2⟩ := dtparseYMDT_inv _ _ _ _ _ hd2
            have hsd : sdt = sdt2 := by
              have h4 := congrArg Prod.fst htr2
              simpa using h4.symm
            have hed : edt = edt2 := by
              have h4 := congrArg Prod.snd htr2
              simpa using h4.symm
            subst hsd
            subst hed
            rw [← h3]
            exact ⟨hw1, hw2, hy1, hy2, by rw [hm1, hm2], by rw [hdd1, hdd2], rfl, rfl⟩

/-- Every shift of a successful parse comes from some row's cells. -/
theorem parse_mem_inv (doc : List HNode) (ny yr : Nat) (shifts : List Shift) (s : Shift)
    (hres : resolveYear (docText doc) ny = Except.ok yr)
    (hp : _parse_synerion_table doc ny = Except.ok shifts) (hs : s ∈ shifts) :
    ∃ tds, processRow yr tds = some s := by
  unfold _parse_synerion_table at hp
  rw [hres] at hp
  cases htt : targetTable doc with
  | none =>
    rw [htt] at hp
    injection hp with hp2
    rw [← hp2] at hs
    exact absurd hs (List.not_mem_nil s)
  | some tgt =>
    rw [htt] at hp
    injection hp with hp2
    rw [← hp2] at hs
    obtain ⟨tr, _, htr⟩ := List.mem_filterMap.mp hs
    exact ⟨cellsOf tr, htr⟩

theorem ltb_same_day_iff (t1 t2 : DateTime) (hy : t1.year = t2.year)
    (hm : t1.month = t2.month) (hd : t1.day = t2.day) :
    (DateTime.ltb t1 t2 = true) ↔ t1.tod < t2.tod := by
  simp only [ltb_iff_key, DateTime.key, DateTime.dayKey, hy, hm, hd]
  omega

/-! ## Concrete documents for the parser claims -/

def thOf (s : String) : HNode := HNode.elem thS [HNode.text s]

def tdOf (s : String) : HNode := HNode.elem tdS [HNode.text s]

def rowOf (a b : String) : HNode := HNode.elem trS [tdOf a, tdOf b]

/-- Header row with the four required labels. -/
def hdrRowH : HNode := HNode.elem trS [thOf labelDateS, thOf labelTimeS, thOf labelDeptS, thOf labelJobS]

def hdrBadS : String := "published from 13/45/2024 to 10/20/2024"

def hdrGoodS : String := "Schedule published from 10/07/2024 to 10/20/2024"

def dateCellS : String := "Tue 10/07"

def overnightCellS : String := "20:00 - 04:00"

def timeCellGoodS : String := "12:00 – 20:15"

def reminderS : String := "Your schedule reminder"

/-- A document whose header carries the unparseable date 13/45/2024 yet
holds a perfectly valid schedule table. -/
def exDoc10 : List HNode :=
  [HNode.text hdrBadS, HNode.elem tableS [hdrRowH, rowOf dateCellS timeCellGoodS]]

/-- A document with the unparseable header and no table at all. -/
def exDoc6 : List HNode := [HNode.text hdrBadS]

/-- A reminder-style document: no header line, one table without the
required labels. -/
def exDoc6w : List HNode :=
  [HNode.text reminderS, HNode.elem tableS [rowOf dateCellS timeCellGoodS]]

/-- A schedule document whose only row spans midnight. -/
def exDoc5 : List HNode := [HNode.elem tableS [hdrRowH, rowOf dateCellS overnightCellS]]

/-- A schedule document with a well-formed header and one valid row. -/
def exDoc7 : List HNode :=
  [HNode.text hdrGoodS, HNode.elem tableS [hdrRowH, rowOf dateCellS timeCellGoodS]]

/-! ## Claims C5, C6, C7, C10 -/

/-- C10.  The parser is not total: on a document whose stripped text
matches the header pattern but whose first date (13/45/2024) is not a
valid calendar date, the header-date parse raises and aborts the whole
parse — for every current year, even though a valid schedule table is
present — rather than skipping the header or falling back. -/
theorem c10_header_abort :
    (∀ ny : Nat, _parse_synerion_table exDoc10 ny = Except.error ()) ∧
    headerSearch (docText exDoc10) = some (13, 45, 2024) ∧
    (targetTable exDoc10).isSome = true :=
  ⟨fun _ => rfl, rfl, rfl⟩

/-- Counterexample to C6.  A document with no matching table whose text
contains "published from 13/45/2024 to 10/20/2024" makes the parser
raise (`Except.error`), never returning the empty sequence: the claim's
"for every HTML input" fails. -/
theorem c6_counterexample :
    (∀ tbl ∈ findTagList tableS exDoc6, isTargetTable tbl = false) ∧
    (∀ ny : Nat, _parse_synerion_table exDoc6 ny = Except.error ()) ∧
    (∀ ny : Nat, _parse_synerion_table exDoc6 ny ≠ Except.ok []) := by
  refine ⟨?_, fun _ => rfl, ?_⟩
  · intro tbl htbl
    rw [show findTagList tableS exDoc6 = [] from rfl] at htbl
    exact absurd htbl (List.not_mem_nil tbl)
  · intro ny h
    rw [show _parse_synerion_table exDoc6 ny = Except.error () from rfl] at h
    exact Except.noConfusion h

/-- C6, amended.  For every document containing no table whose header
cells include the four labels, and whose header-year resolution does not
raise (the "published from" line is absent or carries a parseable date),
the parser returns the empty shift sequence as a normal value. -/
theorem c6_amended_empty (doc : List HNode) (ny : Nat)
    (hnotbl : ∀ tbl ∈ findTagList tableS doc, isTargetTable tbl = false)
    (yr : Nat) (hyr : resolveYear (docText doc) ny = Except.ok yr) :
    _parse_synerion_table doc ny = Except.ok [] := by
  unfold _parse_synerion_table
  rw [hyr]
  have htt : targetTable doc = none := by
    unfold targetTable
    rw [List.find?_eq_none]
    intro tbl htbl
    simp [hnotbl tbl htbl]
  rw [htt]

/-- Witness for the amended C6: a reminder-style document. -/
theorem c6_amended_empty_witness :
    (∀ tbl ∈ findTagList tableS exDoc6w, isTargetTable tbl = false) ∧
    resolveYear (docText exDoc6w) 2025 = Except.ok 2025 ∧
    _parse_synerion_table exDoc6w 2025 = Except.ok [] := by
  have h1 : ∀ tbl ∈ findTagList tableS exDoc6w, isTargetTable tbl = false := by
    intro tbl htbl
    rw [show findTagList tableS exDoc6w =
      [HNode.elem tableS [rowOf dateCellS timeCellGoodS]] from rfl] at htbl
    rw [List.mem_singleton] at htbl
    rw [htbl]
    rfl
  exact ⟨h1, rfl, c6_amended_empty exDoc6w 2025 h1 2025 rfl⟩

/-- C7.  When the stripped text carries a "published from ... to ..."
header whose first date parses, the parse result does not depend on the
current year and every emitted shift carries the header date's year on
both boundaries; when no header matches, every emitted shift carries the
current year of the configured timezone. -/
theorem c7_year_inference (doc : List HNode) (n1 n2 : Nat) :
    (∀ a b y yr, headerSearch (docText doc) = some (a, b, y) →
      pyDateutilMDY a b y = some yr →
      _parse_synerion_table doc n1 = _parse_synerion_table doc n2 ∧
      (∀ shifts, _parse_synerion_table doc n1 = Except.ok shifts →
        ∀ s ∈ shifts, s.start.year = yr ∧ s.stop.year = yr))
    ∧ (headerSearch (docText doc) = none →
      ∀ shifts, _parse_synerion_table doc n1 = Except.ok shifts →
        ∀ s ∈ shifts, s.start.year = n1 ∧ s.stop.year = n1) := by
  constructor
  · intro a b y yr hh hp
    have hres : ∀ n : Nat, resolveYear (docText doc) n = Except.ok yr := by
      intro n
      unfold resolveYear
      rw [hh]
      show (match pyDateutilMDY a b y with
            | some z => Except.ok z
            | none => Except.error ()) = Except.ok yr
      rw [hp]
    constructor
    · unfold _parse_synerion_table
      rw [hres n1, hres n2]
    · intro shifts hps s hs
      obtain ⟨tds, htds⟩ := parse_mem_inv doc n1 yr shifts s (hres n1) hps hs
      obtain ⟨_, _, hy1, hy2, _⟩ := processRow_inv yr tds s htds
      exact ⟨hy1, hy2⟩
  · intro hh shifts hps s hs
    have hres : resolveYear (docText doc) n1 = Except.ok n1 := by
      unfold resolveYear
      rw [hh]
    obtain ⟨tds, htds⟩ := parse_mem_inv doc n1 n1 shifts s hres hps hs
    obtain ⟨_, _, hy1, hy2, _⟩ := processRow_inv n1 tds s htds
    exact ⟨hy1, hy2⟩

/-- Witness for C7: the spec's own header "published from 10/07/2024 to
10/20/2024" yields year 2024 whether the current year is 1999 or 2030. -/
theorem c7_year_inference_witness :
    headerSearch (docText exDoc7) = some (10, 7, 2024) ∧
    pyDateutilMDY 10 7 2024 = some 2024 ∧
    _parse_synerion_table exDoc7 1999 = _parse_synerion_table exDoc7 2030 ∧
    (∀ shifts, _parse_synerion_table exDoc7 1999 = Except.ok shifts →
      ∀ s ∈ shifts, s.start.year = 2024 ∧ s.stop.year = 2024) :=
  ⟨rfl, rfl, ((c7_year_inference exDoc7 1999 2030).1 10 7 2024 2024 rfl rfl).1,
    ((c7_year_inference exDoc7 1999 2030).1 10 7 2024 2024 rfl rfl).2⟩

/-- Counterexample to C5.  The overnight row "20:00 - 04:00" parses to a
shift whose start does not precede its end: the parser enforces no
`start < end` invariant. -/
theorem c5_counterexample :
    _parse_synerion_table exDoc5 2024 =
      Except.ok [⟨⟨2024, 10, 7, 20, 0, 0⟩, ⟨2024, 10, 7, 4, 0, 0⟩, SHIFT_TITLE, none⟩] ∧
    DateTime.ltb (⟨2024, 10, 7, 20, 0, 0⟩ : DateTime) ⟨2024, 10, 7, 4, 0, 0⟩ = false :=
  ⟨rfl, by decide⟩

/-- C5, amended.  Every shift emitted by the parser has representable
boundary instants sharing one calendar day, and `start < end` holds
exactly when the cell's first time-of-day is earlier than its second —
so a cell whose end time is not later than its start (e.g. an overnight
"20:00 - 04:00") yields `start ≥ end`. -/
theorem c5_amended_same_day (doc : List HNode) (ny : Nat) (shifts : List Shift)
    (hp : _parse_synerion_table doc ny = Except.ok shifts) (s : Shift) (hs : s ∈ shifts) :
    WFdt s.start ∧ WFdt s.stop ∧
    s.start.year = s.stop.year ∧ s.start.month = s.stop.month ∧ s.start.day = s.stop.day ∧
    (DateTime.ltb s.start s.stop = true ↔ s.start.tod < s.stop.tod) := by
  cases hres : resolveYear (docText doc) ny with
  | error e =>
    unfold _parse_synerion_table at hp
    rw [hres] at hp
    exact Except.noConfusion hp
  | ok yr =>
    obtain ⟨tds, htds⟩ := parse_mem_inv doc ny yr shifts s hres hp hs
    obtain ⟨hw1, hw2, hy1, hy2, hm, hd, _⟩ := processRow_inv yr tds s htds
    have hy : s.start.year = s.stop.year := by rw [hy1, hy2]
    exact ⟨hw1, hw2, hy, hm, hd, ltb_same_day_iff s.start s.stop hy hm hd⟩

/-- Witness for the amended C5 at the overnight document. -/
theorem c5_amended_same_day_witness :
    (_parse_synerion_table exDoc5 2024 =
      Except.ok [⟨⟨2024, 10, 7, 20, 0, 0⟩, ⟨2024, 10, 7, 4, 0, 0⟩, SHIFT_TITLE, none⟩]) ∧
    ((⟨⟨2024, 10, 7, 20, 0, 0⟩, ⟨2024, 10, 7, 4, 0, 0⟩, SHIFT_TITLE, none⟩ : Shift) ∈
      [(⟨⟨2024, 10, 7, 20, 0, 0⟩, ⟨2024, 10, 7, 4, 0, 0⟩, SHIFT_TITLE, none⟩ : Shift)]) ∧
    (WFdt (⟨2024, 10, 7, 20, 0, 0⟩ : DateTime) ∧ WFdt (⟨2024, 10, 7, 4, 0, 0⟩ : DateTime) ∧
      (2024 : Nat) = 2024 ∧ (10 : Nat) = 10 ∧ (7 : Nat) = 7 ∧
      (DateTime.ltb (⟨2024, 10, 7, 20, 0, 0⟩ : DateTime) ⟨2024, 10, 7, 4, 0, 0⟩ = true ↔
        DateTime.tod ⟨2024, 10, 7, 20, 0, 0⟩ < DateTime.tod ⟨2024, 10, 7, 4, 0, 0⟩)) :=
  ⟨rfl, List.mem_singleton_self _,
    c5_amended_same_day exDoc5 2024
      [⟨⟨2024, 10, 7, 20, 0, 0⟩, ⟨2024, 10, 7, 4, 0, 0⟩, SHIFT_TITLE, none⟩] rfl
      ⟨⟨2024, 10, 7, 20, 0, 0⟩, ⟨2024, 10, 7, 4, 0, 0⟩, SHIFT_TITLE, none⟩
      (List.mem_singleton_self _)⟩

/-! ## Claim C8

The substitution classes of the dash-normalization claim: a time token
(no whitespace, no dash of any kind), a spacing run, and the three dash
characters the cell may use. -/

def tokenOKP (l : List Char) : Prop :=
  ∀ c ∈ l, pyWs c = false ∧ c ≠ '-' ∧ c ≠ enDashC ∧ c ≠ emDashC

def spacesOnlyP (l : List Char) : Prop := ∀ c ∈ l, pyWs c = true

def isDashCP (d : Char) : Prop := d = '-' ∨ d = enDashC ∨ d = emDashC

instance (l : List Char) : Decidable (tokenOKP l) := by
  unfold tokenOKP
  infer_instance

instance (l : List Char) : Decidable (spacesOnlyP l) := by
  unfold spacesOnlyP
  infer_instance

instance (d : Char) : Decidable (isDashCP d) := by
  unfold isDashCP
  infer_instance

theorem ws_not_dash (c : Char) (h : pyWs c = true) :
    c ≠ '-' ∧ c ≠ enDashC ∧ c ≠ emDashC := by
  unfold pyWs Char.isWhitespace at h
  simp only [Bool.or_eq_true, decide_eq_true_eq] at h
  rcases h with ((h | h) | h) | h <;> subst h <;> exact ⟨by decide, by decide, by decide⟩

theorem map_dashRepl_token (l : List Char) (h : tokenOKP l) : l.map dashRepl = l := by
  induction l with
  | nil => rfl
  | cons c t ih =>
    obtain ⟨_, _, hc2, hc3⟩ := h c (List.mem_cons_self c t)
    have ht : tokenOKP t := fun x hx => h x (List.mem_cons_of_mem c hx)
    simp only [List.map_cons, ih ht, List.cons.injEq, and_true]
    unfold dashRepl
    simp [hc2, hc3]

theorem map_dashRepl_spaces (l : List Char) (h : spacesOnlyP l) : l.map dashRepl = l := by
  induction l with
  | nil => rfl
  | cons c t ih =>
    obtain ⟨_, hc2, hc3⟩ := ws_not_dash c (h c (List.mem_cons_self c t))
    have ht : spacesOnlyP t := fun x hx => h x (List.mem_cons_of_mem c hx)
    simp only [List.map_cons, ih ht, List.cons.injEq, and_true]
    unfold dashRepl
    simp [hc2, hc3]

theorem dropWhile_spaces_append (sp l : List Char) (h : spacesOnlyP sp) :
    (sp ++ l).dropWhile pyWs = l.dropWhile pyWs := by
  induction sp with
  | nil => rfl
  | cons c t ih =>
    have hc := h c (List.mem_cons_self c t)
    have ht : spacesOnlyP t := fun x hx => h x (List.mem_cons_of_mem c hx)
    simp [List.dropWhile, hc, ih ht]

theorem dropWhile_token (t : List Char) (h : tokenOKP t) : t.dropWhile pyWs = t := by
  cases t with
  | nil => rfl
  | cons c r =>
    have hc := (h c (List.mem_cons_self c r)).1
    simp [List.dropWhile, hc]

theorem dropWhileLenLe (p : Char → Bool) (l : List Char) :
    (l.dropWhile p).length ≤ l.length := by
  induction l with
  | nil => simp [List.dropWhile]
  | cons c rest ih =>
    by_cases h : p c
    · simp only [List.dropWhile, h]
      exact le_trans ih (by simp)
    · simp [List.dropWhile, h]

theorem subWsDashGo_nil (f : Nat) : subWsDashGo f [] = [] := by
  cases f <;> rfl

theorem subWsDashGo_fuel (f : Nat) : ∀ (g : Nat) (l : List Char),
    l.length ≤ f → l.length ≤ g → subWsDashGo f l = subWsDashGo g l := by
  induction f with
  | zero =>
    intro g l hf _
    have : l = [] := List.length_eq_zero.mp (Nat.le_zero.mp hf)
    subst this
    rw [subWsDashGo_nil, subWsDashGo_nil]
  | succ f ih =>
    intro g l hf hg
    cases l with
    | nil => rw [subWsDashGo_nil, subWsDashGo_nil]
    | cons c rest =>
      cases g with
      | zero => simp at hg
      | succ g =>
        simp only [List.length_cons, Nat.succ_le_succ_iff] at hf hg
        have hdw := dropWhileLenLe pyWs rest
        simp only [subWsDashGo]
        split_ifs with hc1 hc2
        · rw [ih g (rest.dropWhile pyWs) (le_trans hdw hf) (le_trans hdw hg)]
        · split
          · rename_i rest2 hr2
            have h2 : rest2.length < (rest.dropWhile pyWs).length := by
              rw [hr2]
              simp
            have hdw2 := dropWhileLenLe pyWs rest2
            rw [ih g (rest2.dropWhile pyWs) (by omega) (by omega)]
          · rw [ih g (rest.dropWhile pyWs) (le_trans hdw hf) (le_trans hdw hg)]
        · rw [ih g rest hf hg]

theorem subWsDash_token_append (t r : List Char) (h : tokenOKP t) :
    subWsDash (t ++ r) = t ++ subWsDash r := by
  induction t with
  | nil => rfl
  | cons c t' ih =>
    obtain ⟨hc1, hc2, _⟩ := h c (List.mem_cons_self c t')
    have ht : tokenOKP t' := fun x hx => h x (List.mem_cons_of_mem c hx)
    show subWsDashGo ((c :: (t' ++ r)).length) (c :: (t' ++ r)) = c :: (t' ++ subWsDash r)
    simp only [List.length_cons, subWsDashGo]
    rw [if_neg (by simp [hc2]), if_neg (by simp [hc1])]
    show c :: subWsDashGo (t' ++ r).length (t' ++ r) = c :: (t' ++ subWsDash r)
    rw [show subWsDashGo (t' ++ r).length (t' ++ r) = subWsDash (t' ++ r) from rfl, ih ht]

theorem subWsDash_token (t : List Char) (h : tokenOKP t) : subWsDash t = t := by
  have h2 := subWsDash_token_append t [] h
  rw [show subWsDash ([] : List Char) = [] from rfl, List.append_nil] at h2
  exact h2

theorem subWsDash_core (sp1 sp2 t2 : List Char)
    (hs1 : spacesOnlyP sp1) (hs2 : spacesOnlyP sp2) (h2 : tokenOKP t2) :
    subWsDash (sp1 ++ '-' :: (sp2 ++ t2)) = '-' :: t2 := by
  have hdrop : (sp2 ++ t2).dropWhile pyWs = t2 := by
    rw [dropWhile_spaces_append sp2 t2 hs2, dropWhile_token t2 h2]
  cases sp1 with
  | nil =>
    show subWsDashGo (('-' :: (sp2 ++ t2)).length) ('-' :: (sp2 ++ t2)) = '-' :: t2
    simp only [List.length_cons, subWsDashGo]
    rw [if_pos (by decide)]
    rw [hdrop]
    rw [subWsDashGo_fuel (sp2 ++ t2).length t2.length t2
      (by simp only [List.length_append]; omega) (le_refl _)]
    rw [show subWsDashGo t2.length t2 = subWsDash t2 from rfl, subWsDash_token t2 h2]
  | cons c sp1' =>
    have hc := hs1 c (List.mem_cons_self c sp1')
    have hs1' : spacesOnlyP sp1' := fun x hx => hs1 x (List.mem_cons_of_mem c hx)
    obtain ⟨hcd, _, _⟩ := ws_not_dash c hc
    show subWsDashGo ((c :: (sp1' ++ '-' :: (sp2 ++ t2))).length)
      (c :: (sp1' ++ '-' :: (sp2 ++ t2))) = '-' :: t2
    simp only [List.length_cons, subWsDashGo]
    rw [if_neg (by simp [hcd]), if_pos hc]
    have hdrop2 : (sp1' ++ '-' :: (sp2 ++ t2)).dropWhile pyWs = '-' :: (sp2 ++ t2) := by
      rw [dropWhile_spaces_append sp1' _ hs1']
      rw [List.dropWhile_cons, if_neg (by decide)]
    rw [hdrop2]
    show '-' :: subWsDashGo (sp1' ++ '-' :: (sp2 ++ t2)).length ((sp2 ++ t2).dropWhile pyWs)
      = '-' :: t2
    rw [hdrop]
    rw [subWsDashGo_fuel (sp1' ++ '-' :: (sp2 ++ t2)).length t2.length t2
      (by simp only [List.length_append, List.length_cons]; omega) (le_refl _)]
    rw [show subWsDashGo t2.length t2 = subWsDash t2 from rfl, subWsDash_token t2 h2]

theorem dashRepl_dash (d : Char) (hd : isDashCP d) : dashRepl d = '-' := by
  rcases hd with h | h | h <;> subst h <;> decide

theorem normalize_variant (t1 t2 sp1 sp2 : List Char) (d : Char)
    (h1 : tokenOKP t1) (h2 : tokenOKP t2) (hs1 : spacesOnlyP sp1) (hs2 : spacesOnlyP sp2)
    (hd : isDashCP d) :
    normalizeTimeCell (String.mk (t1 ++ (sp1 ++ (d :: (sp2 ++ t2))))) =
      String.mk (t1 ++ '-' :: t2) := by
  show String.mk (subWsDash ((t1 ++ (sp1 ++ (d :: (sp2 ++ t2)))).map dashRepl)) =
    String.mk (t1 ++ '-' :: t2)
  have hmap : (t1 ++ (sp1 ++ (d :: (sp2 ++ t2)))).map dashRepl =
      t1 ++ (sp1 ++ ('-' :: (sp2 ++ t2))) := by
    simp only [List.map_append, List.map_cons]
    rw [map_dashRepl_token t1 h1, map_dashRepl_spaces sp1 hs1, map_dashRepl_spaces sp2 hs2,
      map_dashRepl_token t2 h2, dashRepl_dash d hd]
  rw [hmap, subWsDash_token_append t1 _ h1, subWsDash_core sp1 sp2 t2 hs1 hs2 h2]

theorem normalize_canonical (t1 t2 : List Char) (h1 : tokenOKP t1) (h2 : tokenOKP t2) :
    normalizeTimeCell (String.mk (t1 ++ '-' :: t2)) = String.mk (t1 ++ '-' :: t2) := by
  have hnil : spacesOnlyP [] := fun x hx => absurd hx (List.not_mem_nil x)
  have := normalize_variant t1 t2 [] [] '-' h1 h2 hnil hnil (Or.inl rfl)
  simpa using this

/-- C8.  Two time cells that differ only in which dash character
separates the two time tokens and in the whitespace around that dash
normalise to the same string, split to the same token pair, and parse to
the same (start, end) instant pair for every row date — the processing
of lines 216-232 of `main.py` is invariant under these substitutions. -/
theorem c8_dash_normalization (t1 t2 sp1 sp2 : List Char) (d : Char)
    (h1 : tokenOKP t1) (h2 : tokenOKP t2) (hs1 : spacesOnlyP sp1) (hs2 : spacesOnlyP sp2)
    (hd : isDashCP d) :
    normalizeTimeCell (String.mk (t1 ++ (sp1 ++ (d :: (sp2 ++ t2))))) =
      normalizeTimeCell (String.mk (t1 ++ '-' :: t2)) ∧
    splitTimeCell (String.mk (t1 ++ (sp1 ++ (d :: (sp2 ++ t2))))) =
      splitTimeCell (String.mk (t1 ++ '-' :: t2)) ∧
    ∀ y mm dd, timeRangeOf y mm dd (String.mk (t1 ++ (sp1 ++ (d :: (sp2 ++ t2))))) =
      timeRangeOf y mm dd (String.mk (t1 ++ '-' :: t2)) := by
  have hn : normalizeTimeCell (String.mk (t1 ++ (sp1 ++ (d :: (sp2 ++ t2))))) =
      normalizeTimeCell (String.mk (t1 ++ '-' :: t2)) := by
    rw [normalize_variant t1 t2 sp1 sp2 d h1 h2 hs1 hs2 hd,
      normalize_canonical t1 t2 h1 h2]
  have hsplit : splitTimeCell (String.mk (t1 ++ (sp1 ++ (d :: (sp2 ++ t2))))) =
      splitTimeCell (String.mk (t1 ++ '-' :: t2)) := by
    unfold splitTimeCell
    rw [hn]
  refine ⟨hn, hsplit, ?_⟩
  intro y mm dd
  unfold timeRangeOf
  rw [hsplit]

def tok1225L : List Char := "12:00".data

def tok2015L : List Char := "20:15".data

def oneSpL : List Char := " ".data

set_option maxHeartbeats 1000000 in
/-- Witness for C8: "12:00 – 20:15" with an en dash and single spaces
against the canonical "12:00-20:15". -/
theorem c8_dash_normalization_witness :
    tokenOKP tok1225L ∧ tokenOKP tok2015L ∧ spacesOnlyP oneSpL ∧ isDashCP enDashC ∧
    (normalizeTimeCell (String.mk (tok1225L ++ (oneSpL ++ (enDashC :: (oneSpL ++ tok2015L))))) =
      normalizeTimeCell (String.mk (tok1225L ++ '-' :: tok2015L)) ∧
    splitTimeCell (String.mk (tok1225L ++ (oneSpL ++ (enDashC :: (oneSpL ++ tok2015L))))) =
      splitTimeCell (String.mk (tok1225L ++ '-' :: tok2015L)) ∧
    ∀ y mm dd, timeRangeOf y mm dd
        (String.mk (tok1225L ++ (oneSpL ++ (enDashC :: (oneSpL ++ tok2015L))))) =
      timeRangeOf y mm dd (String.mk (tok1225L ++ '-' :: tok2015L))) :=
  ⟨by decide, by decide, by decide, by decide,
   c8_dash_normalization tok1225L tok2015L oneSpL oneSpL enDashC
     (by decide) (by decide) (by decide) (by decide) (by decide)⟩

/-! ## Claim C9 -/

/-- The counter loop over one message's shifts computes exactly the
`created`/`updated` counts of the status sequence the same upserts
produce, with identical final store and id supply. -/
theorem processShifts_counts (shifts : List Shift) : ∀ (store : List CalEvent) (nid : Nat),
    processShifts shifts store nid =
      ((shiftStatuses shifts store nid).1.count strCreated,
       (shiftStatuses shifts store nid).1.count strUpdated,
       (shiftStatuses shifts store nid).2) := by
  induction shifts with
  | nil => intro store nid; rfl
  | cons s rest ih =>
    intro store nid
    simp only [processShifts, shiftStatuses]
    cases hup : _upsert_event store s (freshId nid) with
    | mk st store2 =>
      simp only [hup]
      cases hss : shiftStatuses rest store2 (nid + 1) with
      | mk sts p2 =>
        rw [ih store2 (nid + 1), hss]
        by_cases h1 : st = strCreated <;> by_cases h2 : st = strUpdated <;>
          simp [h1, h2, List.count_cons] <;> simp [strCreated, strUpdated] at h1 h2 <;>
          omega

/-- The message loop refines the spec-side status run on the same
(already-ordered) message list. -/
theorem goEmails_counts (msgs : List GMessage) : ∀ (store : List CalEvent) (nid ny : Nat),
    goEmails msgs store nid ny = (runStatuses msgs store nid ny).map
      (fun t => (t.1.count strCreated, t.1.count strUpdated, t.2)) := by
  induction msgs with
  | nil => intro store nid ny; rfl
  | cons m rest ih =>
    intro store nid ny
    simp only [goEmails, runStatuses]
    cases hp : _parse_synerion_table m.html ny with
    | error e => simp [Except.map]
    | ok shifts =>
      simp only
      cases hss : shiftStatuses shifts store nid with
      | mk sts p2 =>
        cases p2 with
        | mk store2 nid2 =>
          rw [processShifts_counts shifts store nid, hss]
          simp only
          rw [ih store2 nid2 ny]
          cases hrs : runStatuses rest store2 nid2 ny with
          | error e => simp [Except.map]
          | ok t =>
            cases t with
            | mk sts2 q2 =>
              simp [Except.map, List.count_append]

/-- C9.  The driver processes the fetched messages oldest-first — the
reverse of the newest-first Gmail listing — and its result is exactly
the `created` and `updated` occurrence counts of the status sequence of
that oldest-first run: `skipped_overlap` outcomes influence no component
of the returned aggregate. -/
theorem c9_driver_ordering_and_counts (msgs : List GMessage) (store : List CalEvent)
    (nid ny : Nat) :
    _recent_published_messages msgs = msgs.reverse ∧
    _process_recent_emails msgs store nid ny =
      (runStatuses msgs.reverse store nid ny).map
        (fun t => (t.1.count strCreated, t.1.count strUpdated, t.2)) := by
  refine ⟨rfl, ?_⟩
  unfold _process_recent_emails _recent_published_messages
  exact goEmails_counts msgs.reverse store nid ny
